import Mathlib

/-!
Verification development for the void-browser Graph Persistence &
Crawl/Discovery Engine (`src/app/src-tauri/src/lib.rs`,
`auto_discovery_additions.rs`, `export_import_additions.rs`).

The SQLite-backed graph store is embedded as an explicit `Graph` state
(node list, edge list, AUTOINCREMENT counter).  Network fetches are
nondeterministic external events: each fetch-dependent operation takes
the fetch outcome as a parameter, while the pure post-processing that
the Rust code performs on a response (status check, link normalization,
favicon resolution, coalesce updates, counters) is translated directly.
Timestamps (`datetime('now')` strings, ordered lexicographically, which
is chronological order) are embedded as integers; random f64 positions
are abstracted to integer triples supplied by a generator parameter.
-/

namespace VoidBrowser

/-- Abstract 3-D position.  The source stores three `f64` coordinates
(`position_x/y/z`); no engine logic ever inspects them, so they are
embedded as integers. -/
structure Pos where
  x : Int
  y : Int
  z : Int
deriving DecidableEq, Repr

/-- A row of the `nodes` table (schema in `create_new_session`,
lib.rs:534-546).  `title` is a nullable TEXT column; `is_alive` is the
stored INTEGER read back as `= 1`; `last_crawled`/`created_at` are
datetime strings embedded as integers. -/
structure Node where
  id : Int
  url : String
  title : Option String
  favicon : Option String
  screenshot : Option String
  pos : Pos
  is_alive : Bool
  last_crawled : Option Int
  created_at : Int
deriving DecidableEq, Repr

/-- The graph store: `nodes` and `edges` tables plus the AUTOINCREMENT
counter for node ids (`last_insert_rowid` after an insert).  An edge row
is its `(source_id, target_id)` pair; the edge `id` column is never read
by the engine, and `UNIQUE(source_id, target_id)` makes the pair the key. -/
structure Graph where
  nodes : List Node
  edges : List (Int × Int)
  nextId : Int
deriving DecidableEq, Repr

/-- `SELECT ... FROM nodes WHERE id = ?` via `query_row` (first matching row). -/
def findNodeById (g : Graph) (i : Int) : Option Node :=
  g.nodes.find? (fun n => n.id == i)

/-- `SELECT id FROM nodes WHERE url = ?` via `query_row` (lib.rs:1083-1087). -/
def findIdByUrl (g : Graph) (u : String) : Option Int :=
  (g.nodes.find? (fun n => n.url == u)).map (·.id)

/-- `INSERT OR IGNORE INTO edges (source_id, target_id) VALUES (?, ?)`.
Returns the updated graph and the number of rows changed (0 when the
`(source, target)` pair already exists, 1 otherwise). -/
def insertEdgeIgnore (g : Graph) (s t : Int) : Graph × Nat :=
  if (s, t) ∈ g.edges then (g, 0)
  else ({ g with edges := g.edges ++ [(s, t)] }, 1)

/-- `UPDATE nodes SET title = COALESCE(?, title), favicon = COALESCE(?, favicon),
is_alive = ?, last_crawled = datetime('now') WHERE id = ?`
(lib.rs:916-929 and lib.rs:1052-1060). -/
def coalesceUpdate (g : Graph) (i : Int) (t f : Option String) (alive : Bool)
    (now : Int) : Graph :=
  { g with nodes := g.nodes.map fun n =>
      if n.id = i then
        { n with title := t <|> n.title, favicon := f <|> n.favicon,
                 is_alive := alive, last_crawled := some now }
      else n }

/-- `UPDATE nodes SET is_alive = 0, last_crawled = datetime('now') WHERE id = ?`
(lib.rs:940-943 and lib.rs:1044-1047). -/
def markDead (g : Graph) (i : Int) (now : Int) : Graph :=
  { g with nodes := g.nodes.map fun n =>
      if n.id = i then { n with is_alive := false, last_crawled := some now }
      else n }

/-! ## URL helpers

The source uses the `url` crate.  The engine only ever feeds it
`http`/`https` URLs (guarded by `starts_with` checks before each parse),
so the embedding models the crate's observable behaviour on simple
http(s) URLs: host extraction, fragment removal, and the serializer's
guarantee that an authority is always followed by a path (a bare
`https://host` serializes as `https://host/`). -/

/-- Rust `str::starts_with` on the embedded character lists (byte prefix
and character prefix coincide on valid UTF-8). -/
def listStarts : List Char → List Char → Bool
  | _, [] => true
  | [], _ :: _ => false
  | c :: cs, d :: ds => c == d && listStarts cs ds

/-- `s.starts_with(p)`. -/
def strStartsWith (s p : String) : Bool :=
  listStarts s.data p.data

/-- `url::Url::parse(s).host_str()` for simple http(s) URLs: the text
after the scheme up to the first `/`, `?`, `#` or port `:`.  `none` for
other schemes or an empty host. -/
def hostOf (s : String) : Option String :=
  let rest :=
    if strStartsWith s "http://" then some (s.drop 7)
    else if strStartsWith s "https://" then some (s.drop 8)
    else none
  match rest with
  | none => none
  | some r =>
    let h : String :=
      ⟨r.data.takeWhile (fun c => c ≠ '/' && c ≠ '?' && c ≠ '#' && c ≠ ':')⟩
    if h.isEmpty then none else some h

/-- Drop a `#fragment` suffix (everything from the first `#` on). -/
def dropFragment (s : String) : String :=
  ⟨s.data.takeWhile (· ≠ '#')⟩

/-- `url::Url::parse(normalized)` + `set_fragment(None)` + `to_string()`
for a string that starts with `http://` or `https://`: the fragment is
removed, and if the authority has no path at all a `/` is inserted after
the host (before any query), which is how the url crate serializes an
empty path.  Returns `none` when the host is empty (parse failure). -/
def urlCleanSerialize (s : String) : Option String :=
  let schemeLen : Nat :=
    if strStartsWith s "http://" then 7 else 8
  let noFrag := dropFragment s
  let rest := noFrag.drop schemeLen
  if (hostOf noFrag).isNone then none
  else if rest.data.contains '/' then some noFrag
  else
    let host := ⟨rest.data.takeWhile (· ≠ '?')⟩
    let query := ⟨rest.data.dropWhile (· ≠ '?')⟩
    some ((noFrag.take schemeLen) ++ host ++ "/" ++ query)

/-- `str::trim_end_matches('/')`: removes every trailing `/`. -/
def trimEndSlashes (s : String) : String :=
  ⟨(s.data.reverse.dropWhile (· = '/')).reverse⟩

/-- One anchor `href` through the normalization ladder of
`fetch_page_metadata_with_links` (lib.rs:812-822): protocol-relative →
`https:`, root-relative → site root, absolute `http`-prefixed →
unchanged, fragment-only / `javascript:` / `mailto:` → dropped,
anything else → treated as a path under the site root. -/
def normalizeHref (base href : String) : Option String :=
  if strStartsWith href "//" then some ("https:" ++ href)
  else if strStartsWith href "/" then some (base ++ href)
  else if strStartsWith href "http" then some href
  else if !strStartsWith href "#" && !strStartsWith href "javascript:"
       && !strStartsWith href "mailto:" then some (base ++ "/" ++ href)
  else none

/-- Process one `href`: normalize, keep only `http`/`https` absolute
results, strip the fragment, trim trailing slashes, then push unless a
duplicate or at/over 500 characters (lib.rs:810-834). -/
def extractLinksStep (base : String) (links : List String) (href : String) :
    List String :=
  match normalizeHref base href with
  | none => links
  | some normalized =>
    if strStartsWith normalized "http://" || strStartsWith normalized "https://" then
      match urlCleanSerialize normalized with
      | some serialized =>
        let cleanUrl := trimEndSlashes serialized
        if !links.contains cleanUrl && cleanUrl.length < 500 then
          links ++ [cleanUrl]
        else links
      | none => links
    else links

/-- The outbound-link extraction loop of `fetch_page_metadata_with_links`
(lib.rs:808-835) applied to the `href` attributes of the page's anchors
in document order. -/
def extractLinks (base : String) (hrefs : List String) : List String :=
  hrefs.foldl (extractLinksStep base) []

/-- The favicon `href` resolution ladder shared by both fetch variants
(lib.rs:729-738), with the `<scheme>://<host>/favicon.ico` fallback when
no icon link exists (lib.rs:745). -/
def resolveFavicon (base : String) (iconHref : Option String) : String :=
  match iconHref with
  | some href =>
    if strStartsWith href "//" then "https:" ++ href
    else if strStartsWith href "/" then base ++ href
    else if strStartsWith href "http" then href
    else base ++ "/" ++ href
  | none => base ++ "/favicon.ico"

/-! ## HTTP client configuration

`reqwest::blocking::Client::builder()` chains are embedded as a record
built field by field, exactly mirroring which builder methods each fetch
variant calls.  `reqwest`'s default redirect policy follows at most 10
hops; `.redirect(Policy::limited(5))` replaces it. -/

/-- The identity string both fetchers send (lib.rs:695 and lib.rs:754). -/
def clientUserAgent : String :=
  "Mozilla/5.0 (Windows NT 10.0; Win64; x64) AppleWebKit/537.36"

/-- Observable `reqwest` client policy: total timeout (seconds), maximum
automatic redirects followed, and the `User-Agent` header value. -/
structure ClientConfig where
  timeoutSecs : Nat
  redirectLimit : Nat
  userAgent : Option String
deriving DecidableEq, Repr

/-- `reqwest::blocking::Client::builder()`: no timeout, default redirect
policy of at most 10 hops, no user agent set. -/
def clientBuilderDefault : ClientConfig :=
  { timeoutSecs := 0, redirectLimit := 10, userAgent := none }

/-- `.timeout(Duration::from_secs(n))`. -/
def ClientConfig.timeout (c : ClientConfig) (n : Nat) : ClientConfig :=
  { c with timeoutSecs := n }

/-- `.redirect(reqwest::redirect::Policy::limited(n))`. -/
def ClientConfig.redirect (c : ClientConfig) (n : Nat) : ClientConfig :=
  { c with redirectLimit := n }

/-- `.user_agent(ua)`. -/
def ClientConfig.userAgentSet (c : ClientConfig) (ua : String) : ClientConfig :=
  { c with userAgent := some ua }

/-- The client built by `fetch_page_metadata` (lib.rs:693-697): timeout
and user agent only — no `.redirect(...)` call, so the default policy
stands. -/
def fetchPageMetadataClient : ClientConfig :=
  (clientBuilderDefault.timeout 10).userAgentSet clientUserAgent

/-- The client built by `fetch_page_metadata_with_links` (lib.rs:752-757):
timeout, user agent, and `Policy::limited(5)`. -/
def fetchPageMetadataWithLinksClient : ClientConfig :=
  ((clientBuilderDefault.timeout 10).userAgentSet clientUserAgent).redirect 5

/-! ## Fetch outcomes

The network is external state.  A fetch either fails at the transport
level (`client.get(url).send()` returns `Err`, mapped to a message
string), yields a non-success HTTP status, or yields a page.  For a
page, the embedding carries what the HTML parsing of the source
produces before resolution: the (already trimmed, empty-filtered)
`<title>` text, the first icon-link `href` in the priority scan, the
final post-redirect `<scheme>://<host>` base, and the anchors' raw
`href` attributes in document order.  The status check, favicon
resolution and link extraction below are the source's own logic. -/

inductive FetchOutcome where
  | transportError (msg : String)
  | httpError
  | success (title : Option String) (iconHref : Option String) (base : String)
deriving DecidableEq, Repr

/-- `fetch_page_metadata` (lib.rs:692-749): transport failure is an
`Err`; a non-success status returns `(None, None, false)`; otherwise the
title, the resolved favicon (with `/favicon.ico` fallback) and
`reachable = true`. -/
def fetch_page_metadata : FetchOutcome →
    Except String (Option String × Option String × Bool)
  | .transportError m => .error m
  | .httpError => .ok (none, none, false)
  | .success t icon base => .ok (t, some (resolveFavicon base icon), true)

inductive FetchLinksOutcome where
  | transportError (msg : String)
  | httpError
  | success (title : Option String) (iconHref : Option String) (base : String)
      (hrefs : List String)
deriving DecidableEq, Repr

/-- `fetch_page_metadata_with_links` (lib.rs:751-838): as
`fetch_page_metadata` (a non-success status additionally returns an
empty link list), plus the outbound links extracted from the anchors. -/
def fetch_page_metadata_with_links : FetchLinksOutcome →
    Except String (Option String × Option String × Bool × List String)
  | .transportError m => .error m
  | .httpError => .ok (none, none, false, [])
  | .success t icon base hrefs =>
      .ok (t, some (resolveFavicon base icon), true, extractLinks base hrefs)

/-! ## SingleNodeCrawler -/

/-- The payload of `crawl_single_node` (lib.rs:667-674). -/
structure CrawlResult where
  node_id : Int
  title : Option String
  favicon : Option String
  is_alive : Bool
  error : Option String
deriving DecidableEq, Repr

/-- `crawl_single_node` (lib.rs:898-954).  The id lookup is the only
`Err` path; a transport failure is absorbed: the node is marked dead and
stamped, and the error message travels as data.  The graph is returned
alongside the result because the UPDATE persists even on the absorbed
failure. -/
def crawl_single_node (g : Graph) (nodeId : Int) (outcome : FetchOutcome)
    (now : Int) : Graph × Except String CrawlResult :=
  match findNodeById g nodeId with
  | none => (g, .error "Node not found")
  | some _ =>
    match fetch_page_metadata outcome with
    | .ok (title, favicon, is_alive) =>
      (coalesceUpdate g nodeId title favicon is_alive now,
       .ok ⟨nodeId, title, favicon, is_alive, none⟩)
    | .error e =>
      (markDead g nodeId now, .ok ⟨nodeId, none, none, false, some e⟩)

/-! ## CrawlScheduler -/

/-- Seconds in a day: the staleness window `datetime('now', '-X days')`
shifts `now` by `X` of these. -/
def secondsPerDay : Int := 86400

/-- The `WHERE` clause of `get_next_crawl_target` (lib.rs:867-868):
`last_crawled IS NULL OR last_crawled < datetime('now', '-staleDays days')`. -/
def isStaleCandidate (now staleDays : Int) (n : Node) : Bool :=
  match n.last_crawled with
  | none => true
  | some t => t < now - staleDays * secondsPerDay

/-- The `ORDER BY` key (lib.rs:869-871): `CASE WHEN last_crawled IS NULL
THEN 0 ELSE 1 END, last_crawled ASC` (SQLite sorts NULLs first, and all
NULLs share the key `(0, _)`). -/
def crawlKey (n : Node) : Int × Int :=
  (if n.last_crawled.isNone then 0 else 1, n.last_crawled.getD 0)

/-- Strict lexicographic comparison of order keys. -/
def keyLt (a b : Int × Int) : Prop :=
  a.1 < b.1 ∨ (a.1 = b.1 ∧ a.2 < b.2)

instance (a b : Int × Int) : Decidable (keyLt a b) := by
  unfold keyLt; infer_instance

/-- A minimal element under `crawlKey` (the row `ORDER BY ... LIMIT 1`
returns), keeping the first of equal keys. -/
def selectMinBy : Option Node → List Node → Option Node
  | acc, [] => acc
  | none, n :: rest => selectMinBy (some n) rest
  | some m, n :: rest =>
      selectMinBy (some (if keyLt (crawlKey n) (crawlKey m) then n else m)) rest

/-- `get_next_crawl_target` (lib.rs:854-895): filter to stale
candidates, order by the nulls-first/oldest-first key, return the first
row or `None`. -/
def get_next_crawl_target (g : Graph) (staleDays now : Int) : Option Node :=
  selectMinBy none (g.nodes.filter (isStaleCandidate now staleDays))

/-! ## DiscoveryEngine -/

/-- The payload of `discover_links_from_node` (lib.rs:676-683). -/
structure DiscoveryResult where
  source_node_id : Int
  links_found : Int
  nodes_added : Int
  edges_added : Int
  new_node_ids : List Int
deriving DecidableEq, Repr

/-- `INSERT INTO nodes (url, title, position_x, position_y, position_z,
is_alive, created_at) VALUES (?, ?, ?, ?, ?, 1, datetime('now'))`
(lib.rs:1118-1122): a plain INSERT, failing (UNIQUE on `url`) when the
URL is already stored, otherwise appending a row with the next
AUTOINCREMENT id, `favicon`/`screenshot`/`last_crawled` NULL. -/
def insertNodeDiscover (g : Graph) (url title : String) (p : Pos) (now : Int) :
    Option (Graph × Int) :=
  if g.nodes.any (fun n => n.url == url) then none
  else
    some ({ nodes := g.nodes ++
              [⟨g.nextId, url, some title, none, none, p, true, none, now⟩],
            edges := g.edges, nextId := g.nextId + 1 }, g.nextId)

/-- The mutable state of the discovery loop (lib.rs:1062-1075):
the connection's view of the graph, the in-memory `existing_urls` set,
and the three accumulators. -/
structure LoopState where
  g : Graph
  existing : List String
  nodesAdded : Int
  edgesAdded : Int
  newIds : List Int
deriving Repr

/-- The link-processing loop of `discover_links_from_node`
(lib.rs:1077-1136): break at the node cap; for an already-known URL
create the edge to the existing target and count it only when a row was
added; skip same-domain links under `external_only`; otherwise insert a
node titled by its host, record it in the in-memory set, and create the
source edge with the insert's row count discarded while `edges_added`
is incremented unconditionally. -/
def discoverLoop (srcId : Int) (srcDomain : String) (maxNew : Int)
    (externalOnly : Bool) (posGen : Nat → Pos) (now : Int) :
    List String → LoopState → LoopState
  | [], st => st
  | link :: rest, st =>
    if maxNew ≤ st.nodesAdded then st
    else if st.existing.contains link then
      match findIdByUrl st.g link with
      | some tid =>
        let r := insertEdgeIgnore st.g srcId tid
        discoverLoop srcId srcDomain maxNew externalOnly posGen now rest
          { st with g := r.1,
                    edgesAdded := if 0 < r.2 then st.edgesAdded + 1
                                  else st.edgesAdded }
      | none =>
        discoverLoop srcId srcDomain maxNew externalOnly posGen now rest st
    else if externalOnly && ((hostOf link).getD "" == srcDomain) then
      discoverLoop srcId srcDomain maxNew externalOnly posGen now rest st
    else
      match insertNodeDiscover st.g link ((hostOf link).getD "Unknown")
          (posGen st.nodesAdded.toNat) now with
      | some gn =>
        discoverLoop srcId srcDomain maxNew externalOnly posGen now rest
          { g := (insertEdgeIgnore gn.1 srcId gn.2).1,
            existing := link :: st.existing,
            nodesAdded := st.nodesAdded + 1, edgesAdded := st.edgesAdded + 1,
            newIds := st.newIds ++ [gn.2] }
      | none =>
        discoverLoop srcId srcDomain maxNew externalOnly posGen now rest st

/-- `discover_links_from_node` (lib.rs:1013-1145).  Resolve the source
(`Err` when absent); on transport failure mark it dead, stamp it, and
abort with the error; otherwise coalesce-update the source, snapshot all
node URLs, run the loop, and report with `links_found` the raw extracted
link count.  Random placement is supplied by `posGen`. -/
def discover (g : Graph) (nodeId maxNew : Int) (externalOnly : Bool)
    (outcome : FetchLinksOutcome) (posGen : Nat → Pos) (now : Int) :
    Graph × Except String DiscoveryResult :=
  match findNodeById g nodeId with
  | none => (g, .error "Source node not found")
  | some src =>
    let srcDomain := (hostOf src.url).getD ""
    match fetch_page_metadata_with_links outcome with
    | .error e => (markDead g nodeId now, .error e)
    | .ok (title, favicon, is_alive, links) =>
      let g1 := coalesceUpdate g nodeId title favicon is_alive now
      let st := discoverLoop nodeId srcDomain maxNew externalOnly posGen now
        links ⟨g1, g1.nodes.map (·.url), 0, 0, []⟩
      (st.g, .ok ⟨nodeId, (links.length : Int), st.nodesAdded, st.edgesAdded,
                  st.newIds⟩)

/-! ## SessionMerger

`merge_sessions` (export_import_additions.rs:201-324).  A source
session database is a row list read by the two SELECTs; `HashMap`s are
embedded as association lists where insertion conses (so lookup of the
most recent binding wins, matching `HashMap::insert` overwrite). -/

/-- `String::to_lowercase()`, embedded per character (the two agree on
the ASCII URLs the engine handles). -/
def strToLower (s : String) : String :=
  ⟨s.data.map Char.toLower⟩

/-- A row of a source session's `nodes` table as read at
export_import_additions.rs:240-260. -/
structure SessionNode where
  id : Int
  url : String
  title : Option String
  favicon : Option String
  screenshot : Option String
  pos : Pos
  is_alive : Bool
  last_crawled : Option Int
deriving DecidableEq, Repr

/-- A source session database: its node rows and edge rows. -/
structure SessionDB where
  nodes : List SessionNode
  edges : List (Int × Int)
deriving DecidableEq, Repr

/-- The payload of `merge_sessions` (export_import_additions.rs:20-25). -/
structure MergeResult where
  nodes_merged : Int
  edges_merged : Int
  nodes_skipped : Int
  sessions_merged : Int
deriving DecidableEq, Repr

/-- Association-list lookup (first, i.e. most recently inserted, binding). -/
def lookupIntKey (m : List (Int × Int)) (k : Int) : Option Int :=
  (m.find? (fun p => p.1 == k)).map (·.2)

/-- Association-list lookup for string keys. -/
def lookupStrKey (m : List (String × Int)) (k : String) : Option Int :=
  (m.find? (fun p => p.1 == k)).map (·.2)

/-- The up-front case-insensitive URL→id map
(export_import_additions.rs:216-228): every active node's lowercased URL
mapped to its id. -/
def buildLowerUrlMap (nodes : List Node) : List (String × Int) :=
  nodes.foldl (fun m n => (strToLower n.url, n.id) :: m) []

/-- `INSERT INTO nodes (url, title, favicon, screenshot, position_x,
position_y, position_z, is_alive, last_crawled, created_at) VALUES
(..., datetime('now'))` (export_import_additions.rs:276-280): a plain
INSERT copying every field verbatim with a fresh creation timestamp,
failing when the URL is already stored (UNIQUE, case-sensitive). -/
def insertNodeMerge (g : Graph) (sn : SessionNode) (now : Int) :
    Option (Graph × Int) :=
  if g.nodes.any (fun n => n.url == sn.url) then none
  else
    some ({ nodes := g.nodes ++
              [⟨g.nextId, sn.url, sn.title, sn.favicon, sn.screenshot, sn.pos,
                sn.is_alive, sn.last_crawled, now⟩],
            edges := g.edges, nextId := g.nextId + 1 }, g.nextId)

/-- Mutable state threaded through a merge call: the active graph, the
shared lowercased URL→id map, and the counters. -/
structure MergeState where
  g : Graph
  urlMap : List (String × Int)
  res : MergeResult
deriving Repr

/-- The node loop of one source session
(export_import_additions.rs:262-288): a node whose lowercased URL is
already mapped is recorded in the per-session id map and counted
skipped; otherwise it is inserted, mapped, added to the shared URL map,
and counted merged (nothing is counted when the INSERT fails). -/
def mergeNodes (now : Int) :
    List SessionNode → MergeState → List (Int × Int) →
    MergeState × List (Int × Int)
  | [], st, idMap => (st, idMap)
  | sn :: rest, st, idMap =>
    match lookupStrKey st.urlMap (strToLower sn.url) with
    | some eid =>
      mergeNodes now rest
        { st with res := { st.res with nodes_skipped := st.res.nodes_skipped + 1 } }
        ((sn.id, eid) :: idMap)
    | none =>
      match insertNodeMerge st.g sn now with
      | some gn =>
        mergeNodes now rest
          { g := gn.1, urlMap := (strToLower sn.url, gn.2) :: st.urlMap,
            res := { st.res with nodes_merged := st.res.nodes_merged + 1 } }
          ((sn.id, gn.2) :: idMap)
      | none => mergeNodes now rest st idMap

/-- The edge loop of one source session
(export_import_additions.rs:300-318): remap both endpoints through the
per-session id map, drop the edge silently when either is unmapped,
insert idempotently otherwise and count it only when a row was added. -/
def mergeEdges : List (Int × Int) → Graph → List (Int × Int) → Graph × Int
  | [], g, _ => (g, 0)
  | (os, ot) :: rest, g, idMap =>
    match lookupIntKey idMap os, lookupIntKey idMap ot with
    | some ns, some nt =>
      let r := insertEdgeIgnore g ns nt
      let rec2 := mergeEdges rest r.1 idMap
      (rec2.1, (if 0 < r.2 then 1 else 0) + rec2.2)
    | _, _ => mergeEdges rest g idMap

/-- One source session (export_import_additions.rs:230-321): a fresh
per-session id map, the node loop, the edge loop, and one
`sessions_merged` tick. -/
def mergeSession (now : Int) (st : MergeState) (s : SessionDB) : MergeState :=
  let r := mergeNodes now s.nodes st []
  let re := mergeEdges s.edges r.1.g r.2
  { g := re.1, urlMap := r.1.urlMap,
    res := { r.1.res with
               edges_merged := r.1.res.edges_merged + re.2,
               sessions_merged := r.1.res.sessions_merged + 1 } }

/-- `merge_sessions` (export_import_additions.rs:201-324): build the
shared lowercased URL map once from the active graph, then fold every
source session through it.  (A session whose file cannot be opened is
skipped with no counter change; the embedding takes the readable
sessions as input.) -/
def merge_sessions (g : Graph) (sessions : List SessionDB) (now : Int) :
    Graph × MergeResult :=
  let st := sessions.foldl (mergeSession now)
    ⟨g, buildLowerUrlMap g.nodes, ⟨0, 0, 0, 0⟩⟩
  (st.g, st.res)

/-! ## ImportAdapter

`import_crawler_db` (lib.rs:211-320).  The foreign crawler schema keys
nodes by string ids and stores a `thumbnail` blob; the base64 step
`format!("data:image/png;base64,{}", encode(data))` is embedded with the
blob payload kept abstract as a string. -/

/-- A row of the crawler's `nodes` table as read at lib.rs:241-257. -/
structure CrawlerNode where
  id : String
  url : String
  title : Option String
  favicon : Option String
  thumbnail : Option String
  pos : Pos
  is_alive : Bool
deriving DecidableEq, Repr

/-- The crawler database: node rows, and edge rows whose `target_id`
may be NULL (the import query filters those out itself, lib.rs:294). -/
structure CrawlerDB where
  nodes : List CrawlerNode
  edges : List (String × Option String)
deriving DecidableEq, Repr

/-- The payload of `import_crawler_db` (lib.rs:204-209). -/
structure ImportStats where
  nodes_imported : Int
  edges_imported : Int
  nodes_skipped : Int
deriving DecidableEq, Repr

/-- Association-list lookup for the string-keyed crawler id map. -/
def lookupCrawlerId (m : List (String × Int)) (k : String) : Option Int :=
  (m.find? (fun p => p.1 == k)).map (·.2)

/-- The exact-match URL→id map of the active graph (lib.rs:227-239):
no lowercasing, unlike the merge path. -/
def buildExactUrlMap (nodes : List Node) : List (String × Int) :=
  nodes.foldl (fun m n => (n.url, n.id) :: m) []

/-- The node loop of `import_crawler_db` (lib.rs:259-291): an exact URL
collision is remapped and counted skipped; otherwise the node is
inserted with the thumbnail encoded as an inline data URL, a defaulted
title, and `last_crawled` stamped now.  The plain INSERT's failure
propagates (`?`), aborting the import. -/
def importNodes (now : Int) :
    List CrawlerNode → Graph → List (String × Int) → List (String × Int) →
    Int → Int →
    Except (String × Graph) (Graph × List (String × Int) × Int × Int)
  | [], g, _, idMap, imported, skipped => .ok (g, idMap, imported, skipped)
  | cn :: rest, g, exact, idMap, imported, skipped =>
    match lookupCrawlerId exact cn.url with
    | some eid =>
      importNodes now rest g exact ((cn.id, eid) :: idMap) imported (skipped + 1)
    | none =>
      if g.nodes.any (fun n => n.url == cn.url) then
        .error ("UNIQUE constraint failed: nodes.url", g)
      else
        let screenshot := cn.thumbnail.map
          (fun data => "data:image/png;base64," ++ data)
        let g' : Graph :=
          { nodes := g.nodes ++
              [⟨g.nextId, cn.url, some (cn.title.getD "Untitled"), cn.favicon,
                screenshot, cn.pos, cn.is_alive, some now, now⟩],
            edges := g.edges, nextId := g.nextId + 1 }
        importNodes now rest g' ((cn.url, g.nextId) :: exact)
          ((cn.id, g.nextId) :: idMap) (imported + 1) skipped

/-- The edge loop of `import_crawler_db` (lib.rs:293-317): NULL targets
never reach the remap (SQL filter); when both endpoints resolve, the
idempotent insert is attempted and `edges_imported` is incremented
whenever the statement succeeds — regardless of whether a row was
actually added. -/
def importEdges : List (String × Option String) → Graph → List (String × Int) →
    Graph × Int
  | [], g, _ => (g, 0)
  | (_, none) :: rest, g, idMap => importEdges rest g idMap
  | (s, some t) :: rest, g, idMap =>
    match lookupCrawlerId idMap s, lookupCrawlerId idMap t with
    | some appSource, some appTarget =>
      let rec2 := importEdges rest (insertEdgeIgnore g appSource appTarget).1 idMap
      (rec2.1, 1 + rec2.2)
    | _, _ => importEdges rest g idMap

/-- `import_crawler_db` (lib.rs:211-320) assembled. -/
def import_crawler_db (g : Graph) (db : CrawlerDB) (now : Int) :
    Graph × Except String ImportStats :=
  match importNodes now db.nodes g (buildExactUrlMap g.nodes) [] 0 0 with
  | .error (e, gPartial) => (gPartial, .error e)
  | .ok (g1, idMap, imported, skipped) =>
    let re := importEdges db.edges g1 idMap
    (re.1, .ok ⟨imported, re.2, skipped⟩)

/-! ## Helper lemmas -/

/-- A node other than the updated one survives `markDead` untouched. -/
theorem markDead_mem_of_ne {g : Graph} {i now : Int} {n : Node}
    (hn : n ∈ g.nodes) (h : n.id ≠ i) : n ∈ (markDead g i now).nodes := by
  unfold markDead
  exact List.mem_map.mpr ⟨n, hn, by simp [h]⟩

/-- The updated node appears in `markDead`'s output with `is_alive`
cleared and `last_crawled` stamped. -/
theorem markDead_mem_of_eq {g : Graph} {i now : Int} {n : Node}
    (hn : n ∈ g.nodes) (h : n.id = i) :
    { n with is_alive := false, last_crawled := some now } ∈
      (markDead g i now).nodes := by
  unfold markDead
  exact List.mem_map.mpr ⟨n, hn, by simp [h]⟩

/-- `markDead` preserves the node count. -/
theorem markDead_length (g : Graph) (i now : Int) :
    (markDead g i now).nodes.length = g.nodes.length := by
  unfold markDead
  exact List.length_map _ _

/-- `markDead` leaves the edge table alone. -/
theorem markDead_edges (g : Graph) (i now : Int) :
    (markDead g i now).edges = g.edges := rfl

/-- `markDead` does not consume node ids. -/
theorem markDead_nextId (g : Graph) (i now : Int) :
    (markDead g i now).nextId = g.nextId := rfl

/-! ## Shared example states -/

def pos0 : Pos := ⟨0, 0, 0⟩

def exSource : Node := ⟨1, "https://s.com", some "S", none, none, pos0, true, none, 0⟩

def exTarget : Node := ⟨2, "https://t.com", some "T", none, none, pos0, true, none, 0⟩

def exGraph : Graph := ⟨[exSource, exTarget], [], 3⟩

/-! ## C8 — fetch policy -/

/-- C8 counterexample: the claim says every metadata fetch follows at
most 5 automatic redirects, but the crawl-single variant
(`fetch_page_metadata`) never installs a redirect policy, so it keeps
reqwest's default limit of 10 — only the with-links variant limits
redirects to 5. -/
theorem C8_counterexample :
    fetchPageMetadataClient.redirectLimit = 10 ∧
    fetchPageMetadataClient.redirectLimit ≠ 5 ∧
    fetchPageMetadataWithLinksClient.redirectLimit = 5 := by
  refine ⟨rfl, ?_, rfl⟩
  decide

/-- C8 (amended): both fetch variants use a 10-second total timeout and
send the same fixed client identity string; the with-links variant
follows at most 5 automatic redirects, while the crawl-single variant
keeps the builder's default redirect policy (at most 10 hops). -/
theorem C8_fetch_policy :
    fetchPageMetadataClient.timeoutSecs = 10 ∧
    fetchPageMetadataWithLinksClient.timeoutSecs = 10 ∧
    fetchPageMetadataClient.userAgent = some clientUserAgent ∧
    fetchPageMetadataWithLinksClient.userAgent = some clientUserAgent ∧
    fetchPageMetadataWithLinksClient.redirectLimit = 5 ∧
    fetchPageMetadataClient.redirectLimit =
      clientBuilderDefault.redirectLimit :=
  ⟨rfl, rfl, rfl, rfl, rfl, rfl⟩

/-! ## C4 — crawlSingle error semantics -/

/-- C4: `crawl_single_node` errors exactly when the node id does not
resolve.  For a resolvable node it returns `.ok` for every fetch
outcome; a non-success HTTP status yields `isAlive = false`,
`title = none`, `error = none`; a transport failure still returns
`.ok`, carrying the message as data, with the stored node marked dead
and `last_crawled` stamped. -/
theorem C4_crawl_single (g : Graph) (nodeId : Int) (outcome : FetchOutcome)
    (now : Int) :
    (findNodeById g nodeId = none →
      (crawl_single_node g nodeId outcome now).2 = .error "Node not found") ∧
    (∀ src, findNodeById g nodeId = some src →
      (∃ res, (crawl_single_node g nodeId outcome now).2 = .ok res) ∧
      (crawl_single_node g nodeId .httpError now).2 =
        .ok ⟨nodeId, none, none, false, none⟩ ∧
      (∀ msg, (crawl_single_node g nodeId (.transportError msg) now).2 =
          .ok ⟨nodeId, none, none, false, some msg⟩ ∧
        ∀ n ∈ g.nodes, n.id = nodeId →
          { n with is_alive := false, last_crawled := some now } ∈
            (crawl_single_node g nodeId (.transportError msg) now).1.nodes)) := by
  constructor
  · intro h
    unfold crawl_single_node
    rw [h]
  · intro src h
    refine ⟨?_, ?_, ?_⟩
    · unfold crawl_single_node
      rw [h]
      cases outcome <;> simp [fetch_page_metadata]
    · unfold crawl_single_node
      rw [h]
      rfl
    · intro msg
      constructor
      · unfold crawl_single_node
        rw [h]
        rfl
      · intro n hn hid
        have : (crawl_single_node g nodeId (.transportError msg) now).1 =
            markDead g nodeId now := by
          unfold crawl_single_node
          rw [h]
          rfl
        rw [this]
        exact markDead_mem_of_eq hn hid

/-- C4 witness: on the concrete two-node graph, node 1 resolves and an
HTTP 404 yields `isAlive = false`, `title = none`, `error = none`. -/
theorem C4_witness :
    (crawl_single_node exGraph 1 .httpError 50).2 =
      .ok ⟨1, none, none, false, none⟩ :=
  ((C4_crawl_single exGraph 1 .httpError 50).2 exSource (by decide)).2.1

/-! ## C3 — discover aborts on transport failure -/

/-- C3: when the fetch inside `discover_links_from_node` fails at the
transport level, the call returns the error and performs no expansion:
edge table, node count and id counter are untouched, every other node is
unchanged, and the source node is only marked dead with `last_crawled`
stamped. -/
theorem C3_discover_transport_abort (g : Graph) (nodeId maxNew : Int)
    (externalOnly : Bool) (msg : String) (posGen : Nat → Pos) (now : Int)
    (src : Node) (h : findNodeById g nodeId = some src) :
    (discover g nodeId maxNew externalOnly (.transportError msg) posGen
        now).2 = .error msg ∧
    (discover g nodeId maxNew externalOnly (.transportError msg) posGen
        now).1.edges = g.edges ∧
    (discover g nodeId maxNew externalOnly (.transportError msg) posGen
        now).1.nodes.length = g.nodes.length ∧
    (discover g nodeId maxNew externalOnly (.transportError msg) posGen
        now).1.nextId = g.nextId ∧
    (∀ n ∈ g.nodes, n.id ≠ nodeId →
      n ∈ (discover g nodeId maxNew externalOnly (.transportError msg) posGen
            now).1.nodes) ∧
    (∀ n ∈ g.nodes, n.id = nodeId →
      { n with is_alive := false, last_crawled := some now } ∈
        (discover g nodeId maxNew externalOnly (.transportError msg) posGen
          now).1.nodes) := by
  have key : discover g nodeId maxNew externalOnly (.transportError msg)
      posGen now = (markDead g nodeId now, .error msg) := by
    unfold discover
    rw [h]
    rfl
  rw [key]
  exact ⟨rfl, markDead_edges g nodeId now, markDead_length g nodeId now,
    markDead_nextId g nodeId now,
    fun n hn hne => markDead_mem_of_ne hn hne,
    fun n hn heq => markDead_mem_of_eq hn heq⟩

/-- C3 witness: a failing fetch on node 1 of the concrete graph returns
the error and leaves the edge table unchanged. -/
theorem C3_witness :
    (discover exGraph 1 5 false (.transportError "dns error")
        (fun _ => pos0) 100).2 = .error "dns error" ∧
    (discover exGraph 1 5 false (.transportError "dns error")
        (fun _ => pos0) 100).1.edges = exGraph.edges :=
  ⟨(C3_discover_transport_abort exGraph 1 5 false "dns error"
      (fun _ => pos0) 100 exSource (by decide)).1,
   (C3_discover_transport_abort exGraph 1 5 false "dns error"
      (fun _ => pos0) 100 exSource (by decide)).2.1⟩

/-! ## Discovery loop lemmas -/

/-- `insertEdgeIgnore` never touches the node table. -/
theorem insertEdgeIgnore_nodes (g : Graph) (s t : Int) :
    (insertEdgeIgnore g s t).1.nodes = g.nodes := by
  unfold insertEdgeIgnore
  split <;> rfl

/-- `insertEdgeIgnore` preserves existing edge rows. -/
theorem insertEdgeIgnore_mem (g : Graph) (s t : Int) {e : Int × Int}
    (h : e ∈ g.edges) : e ∈ (insertEdgeIgnore g s t).1.edges := by
  unfold insertEdgeIgnore
  split
  · exact h
  · exact List.mem_append_left _ h

/-- After `insertEdgeIgnore g s t`, the row `(s, t)` is present. -/
theorem insertEdgeIgnore_mem_self (g : Graph) (s t : Int) :
    (s, t) ∈ (insertEdgeIgnore g s t).1.edges := by
  unfold insertEdgeIgnore
  split
  · assumption
  · exact List.mem_append_right _ (List.mem_singleton.mpr rfl)

/-- A successful `insertNodeDiscover` appends exactly the new row and
hands back the AUTOINCREMENT id. -/
theorem insertNodeDiscover_spec {g : Graph} {url title : String} {p : Pos}
    {now : Int} {gn : Graph × Int}
    (h : insertNodeDiscover g url title p now = some gn) :
    gn.1.nodes = g.nodes ++
      [⟨g.nextId, url, some title, none, none, p, true, none, now⟩] ∧
    gn.1.edges = g.edges ∧ gn.1.nextId = g.nextId + 1 ∧ gn.2 = g.nextId := by
  unfold insertNodeDiscover at h
  split at h
  · exact absurd h (by simp)
  · rw [Option.some_inj] at h
    subst h
    exact ⟨rfl, rfl, rfl, rfl⟩

section DiscoverLoop

variable (srcId : Int) (srcDomain : String) (maxNew : Int)
variable (externalOnly : Bool) (posGen : Nat → Pos) (now : Int)

/-- Once `nodes_added` has reached the cap, the loop processes nothing. -/
theorem discoverLoop_stop (links : List String) (st : LoopState)
    (h : maxNew ≤ st.nodesAdded) :
    discoverLoop srcId srcDomain maxNew externalOnly posGen now links st
      = st := by
  cases links with
  | nil => rfl
  | cons l rest =>
    unfold discoverLoop
    rw [if_pos h]

/-- Loop invariant: the cap is preserved, and both the node-table growth
and the collected id list track `nodes_added` exactly. -/
theorem discoverLoop_invariant (links : List String) (st : LoopState) :
    (st.nodesAdded ≤ maxNew →
      (discoverLoop srcId srcDomain maxNew externalOnly posGen now links
        st).nodesAdded ≤ maxNew) ∧
    (((discoverLoop srcId srcDomain maxNew externalOnly posGen now links
        st).g.nodes.length : Int) -
      (discoverLoop srcId srcDomain maxNew externalOnly posGen now links
        st).nodesAdded = (st.g.nodes.length : Int) - st.nodesAdded) ∧
    (((discoverLoop srcId srcDomain maxNew externalOnly posGen now links
        st).newIds.length : Int) -
      (discoverLoop srcId srcDomain maxNew externalOnly posGen now links
        st).nodesAdded = (st.newIds.length : Int) - st.nodesAdded) := by
  induction links generalizing st with
  | nil => exact ⟨fun h => h, rfl, rfl⟩
  | cons link rest ih =>
    obtain ⟨g0, ex0, na0, ea0, ids0⟩ := st
    by_cases hcap : maxNew ≤ na0
    · rw [discoverLoop_stop srcId srcDomain maxNew externalOnly posGen now
        _ _ hcap]
      exact ⟨fun h => h, rfl, rfl⟩
    · unfold discoverLoop
      dsimp only
      rw [if_neg hcap]
      split
      · split
        · rename_i tid hfind
          obtain ⟨c1, c2, c3⟩ := ih
            ⟨(insertEdgeIgnore g0 srcId tid).1, ex0, na0,
              if 0 < (insertEdgeIgnore g0 srcId tid).2 then ea0 + 1 else ea0,
              ids0⟩
          dsimp only at c1 c2 c3
          rw [insertEdgeIgnore_nodes] at c2
          exact ⟨c1, c2, c3⟩
        · exact ih ⟨g0, ex0, na0, ea0, ids0⟩
      · split
        · exact ih ⟨g0, ex0, na0, ea0, ids0⟩
        · split
          · rename_i gn hins
            obtain ⟨hnodes, -, -, -⟩ := insertNodeDiscover_spec hins
            obtain ⟨c1, c2, c3⟩ := ih
              ⟨(insertEdgeIgnore gn.1 srcId gn.2).1, link :: ex0,
                na0 + 1, ea0 + 1, ids0 ++ [gn.2]⟩
            dsimp only at c1 c2 c3
            rw [insertEdgeIgnore_nodes, hnodes] at c2
            simp only [List.length_append, List.length_singleton] at c2 c3
            push_cast at c2 c3
            exact ⟨fun h => c1 (by omega), by omega, by omega⟩
          · exact ih ⟨g0, ex0, na0, ea0, ids0⟩

/-- Edge rows are never removed by the discovery loop. -/
theorem discoverLoop_edges_mono (links : List String) (st : LoopState)
    {e : Int × Int} (he : e ∈ st.g.edges) :
    e ∈ (discoverLoop srcId srcDomain maxNew externalOnly posGen now links
      st).g.edges := by
  induction links generalizing st with
  | nil => exact he
  | cons link rest ih =>
    by_cases hcap : maxNew ≤ st.nodesAdded
    · rw [discoverLoop_stop srcId srcDomain maxNew externalOnly posGen now
        _ _ hcap]
      exact he
    · obtain ⟨g0, ex0, na0, ea0, ids0⟩ := st
      unfold discoverLoop
      dsimp only
      dsimp only at hcap he
      rw [if_neg hcap]
      split
      · split
        · rename_i tid hfind
          exact ih _ (insertEdgeIgnore_mem g0 srcId tid he)
        · exact ih _ he
      · split
        · exact ih _ he
        · split
          · rename_i gn hins
            obtain ⟨-, hedges, -, -⟩ := insertNodeDiscover_spec hins
            refine ih _ (insertEdgeIgnore_mem gn.1 srcId gn.2 ?_)
            rw [hedges]
            exact he
          · exact ih _ he

end DiscoverLoop

/-- `coalesceUpdate` preserves the node count. -/
theorem coalesceUpdate_length (g : Graph) (i : Int) (t f : Option String)
    (alive : Bool) (now : Int) :
    (coalesceUpdate g i t f alive now).nodes.length = g.nodes.length := by
  unfold coalesceUpdate
  exact List.length_map _ _

/-- The ok-path of `discover` spelled out: successful fetch, coalesce
update, URL snapshot, loop. -/
theorem discover_ok_spec {g : Graph} {nodeId maxNew : Int}
    {externalOnly : Bool} {outcome : FetchLinksOutcome} {posGen : Nat → Pos}
    {now : Int} {src : Node} {title favicon : Option String}
    {is_alive : Bool} {links : List String}
    (hfind : findNodeById g nodeId = some src)
    (hfetch : fetch_page_metadata_with_links outcome =
      .ok (title, favicon, is_alive, links)) :
    discover g nodeId maxNew externalOnly outcome posGen now =
      ((discoverLoop nodeId ((hostOf src.url).getD "") maxNew externalOnly
          posGen now links
          ⟨coalesceUpdate g nodeId title favicon is_alive now,
            (coalesceUpdate g nodeId title favicon is_alive now).nodes.map
              (·.url), 0, 0, []⟩).g,
        .ok ⟨nodeId, (links.length : Int),
          (discoverLoop nodeId ((hostOf src.url).getD "") maxNew externalOnly
            posGen now links
            ⟨coalesceUpdate g nodeId title favicon is_alive now,
              (coalesceUpdate g nodeId title favicon is_alive now).nodes.map
                (·.url), 0, 0, []⟩).nodesAdded,
          (discoverLoop nodeId ((hostOf src.url).getD "") maxNew externalOnly
            posGen now links
            ⟨coalesceUpdate g nodeId title favicon is_alive now,
              (coalesceUpdate g nodeId title favicon is_alive now).nodes.map
                (·.url), 0, 0, []⟩).edgesAdded,
          (discoverLoop nodeId ((hostOf src.url).getD "") maxNew externalOnly
            posGen now links
            ⟨coalesceUpdate g nodeId title favicon is_alive now,
              (coalesceUpdate g nodeId title favicon is_alive now).nodes.map
                (·.url), 0, 0, []⟩).newIds⟩) := by
  unfold discover
  rw [hfind, hfetch]

/-! ## C1 — the node cap -/

/-- C1: with a cap `maxNew ≥ 0`, however many links the fetch yields,
`discover` reports `nodes_added ≤ maxNew`, creates at most `maxNew` new
node rows, reports exactly one collected id per added node, and the link
loop stops as soon as `nodes_added` reaches the cap. -/
theorem C1_discover_node_cap (g : Graph) (nodeId maxNew : Int)
    (externalOnly : Bool) (outcome : FetchLinksOutcome) (posGen : Nat → Pos)
    (now : Int) (g' : Graph) (r : DiscoveryResult) (hcap : 0 ≤ maxNew)
    (h : discover g nodeId maxNew externalOnly outcome posGen now =
      (g', .ok r)) :
    r.nodes_added ≤ maxNew ∧
    (g'.nodes.length : Int) ≤ (g.nodes.length : Int) + maxNew ∧
    (r.new_node_ids.length : Int) = r.nodes_added ∧
    (∀ srcDomain links st, maxNew ≤ st.nodesAdded →
      discoverLoop nodeId srcDomain maxNew externalOnly posGen now links st
        = st) := by
  rcases hfind : findNodeById g nodeId with - | src
  · rw [discover, hfind] at h
    exact absurd (congrArg Prod.snd h) (by simp)
  · rcases hfetch : fetch_page_metadata_with_links outcome with e | val
    · rw [discover, hfind, hfetch] at h
      exact absurd (congrArg Prod.snd h) (by simp)
    · obtain ⟨title, favicon, is_alive, links⟩ := val
      rw [discover_ok_spec hfind hfetch] at h
      have hg : g' = (discoverLoop nodeId ((hostOf src.url).getD "") maxNew
          externalOnly posGen now links
          ⟨coalesceUpdate g nodeId title favicon is_alive now,
            (coalesceUpdate g nodeId title favicon is_alive now).nodes.map
              (·.url), 0, 0, []⟩).g :=
        (congrArg Prod.fst h).symm
      have hr : r = ⟨nodeId, (links.length : Int),
          (discoverLoop nodeId ((hostOf src.url).getD "") maxNew externalOnly
            posGen now links
            ⟨coalesceUpdate g nodeId title favicon is_alive now,
              (coalesceUpdate g nodeId title favicon is_alive now).nodes.map
                (·.url), 0, 0, []⟩).nodesAdded,
          (discoverLoop nodeId ((hostOf src.url).getD "") maxNew externalOnly
            posGen now links
            ⟨coalesceUpdate g nodeId title favicon is_alive now,
              (coalesceUpdate g nodeId title favicon is_alive now).nodes.map
                (·.url), 0, 0, []⟩).edgesAdded,
          (discoverLoop nodeId ((hostOf src.url).getD "") maxNew externalOnly
            posGen now links
            ⟨coalesceUpdate g nodeId title favicon is_alive now,
              (coalesceUpdate g nodeId title favicon is_alive now).nodes.map
                (·.url), 0, 0, []⟩).newIds⟩ := by
        have := congrArg Prod.snd h
        simp only at this
        exact (Except.ok.inj this).symm
      obtain ⟨c1, c2, c3⟩ := discoverLoop_invariant nodeId
        ((hostOf src.url).getD "") maxNew externalOnly posGen now links
        ⟨coalesceUpdate g nodeId title favicon is_alive now,
          (coalesceUpdate g nodeId title favicon is_alive now).nodes.map
            (·.url), 0, 0, []⟩
      dsimp only at c1 c2 c3
      rw [coalesceUpdate_length] at c2
      simp only [List.length_nil] at c3
      subst hg
      subst hr
      refine ⟨c1 hcap, by omega, by dsimp only; omega,
        fun srcDomain links' st hstop =>
          discoverLoop_stop nodeId srcDomain maxNew externalOnly posGen now
            links' st hstop⟩

/-- The fetch outcome shared by the concrete discovery runs: one fresh
link and one link whose URL is already stored. -/
def exDiscoverLinks : FetchLinksOutcome :=
  .success none none "https://s.com" ["https://new.com/a", "https://t.com"]

/-- The source node after the coalesce update of the concrete run. -/
def exSourceCrawled : Node :=
  ⟨1, "https://s.com", some "S", some "https://s.com/favicon.ico", none, pos0,
    true, some 100, 0⟩

/-- The node created from the fresh link in the concrete run. -/
def exNewNode : Node :=
  ⟨3, "https://new.com/a", some "new.com", none, none, pos0, true, none, 100⟩

/-- The graph produced by the concrete capped run. -/
def exGraphAfter : Graph := ⟨[exSourceCrawled, exTarget, exNewNode], [(1, 3)], 4⟩

/-- C1 witness: on the concrete graph, cap 1 with two fetched links adds
exactly one node. -/
theorem C1_witness :
    (⟨1, 2, 1, 1, [3]⟩ : DiscoveryResult).nodes_added ≤ 1 ∧
    (exGraphAfter.nodes.length : Int) ≤ (exGraph.nodes.length : Int) + 1 := by
  have h := C1_discover_node_cap exGraph 1 1 false exDiscoverLinks
    (fun _ => pos0) 100 exGraphAfter ⟨1, 2, 1, 1, [3]⟩ (by norm_num) (by rfl)
  exact ⟨h.1, h.2.1⟩

/-! ## C2 — pre-existing-target links and the cap -/

/-- A third stored node, target of the second already-known link in the
uncapped-edge run. -/
def exThird : Node := ⟨3, "https://u.com", some "U", none, none, pos0, true, none, 0⟩

def exGraph3 : Graph := ⟨[exSource, exTarget, exThird], [], 4⟩

/-- Fetch outcome with two already-stored links before one fresh link. -/
def exLinks3 : FetchLinksOutcome :=
  .success none none "https://s.com"
    ["https://t.com", "https://u.com", "https://new.com/a"]

/-- C2 counterexample: with cap 1 and links `[fresh, already-stored]`,
the fresh link fills the cap, and the already-stored link
`https://t.com` (resolving to node 2) is then never processed — no
source→2 edge is created, contradicting "the source-to-existing-target
edge is still created even after nodesAdded has reached maxNewNodes". -/
theorem C2_counterexample :
    findIdByUrl exGraph "https://t.com" = some 2 ∧
    (discover exGraph 1 1 false exDiscoverLinks (fun _ => pos0) 100).2 =
      .ok ⟨1, 2, 1, 1, [3]⟩ ∧
    ((1 : Int), (2 : Int)) ∉
      (discover exGraph 1 1 false exDiscoverLinks (fun _ => pos0)
        100).1.edges := by
  refine ⟨by rfl, by rfl, ?_⟩
  have h : (discover exGraph 1 1 false exDiscoverLinks (fun _ => pos0)
      100).1.edges = [(1, 3)] := by rfl
  rw [h]
  decide

/-- C2 (amended): a link whose URL already exists, encountered while
`nodes_added` is still below the cap, gets its source→existing-target
edge created (counted only when newly inserted) and consumes none of the
node cap; a call can therefore process more links than `maxNewNodes`
(concretely: cap 1, three links, all three processed).  Once the cap is
reached, however, iteration stops and no further links are processed. -/
theorem C2_existing_target_edges :
    (∀ (srcId : Int) (srcDomain : String) (maxNew : Int)
        (externalOnly : Bool) (posGen : Nat → Pos) (now : Int)
        (link : String) (rest : List String) (st : LoopState) (tid : Int),
      st.nodesAdded < maxNew →
      st.existing.contains link = true →
      findIdByUrl st.g link = some tid →
      (srcId, tid) ∈ (discoverLoop srcId srcDomain maxNew externalOnly posGen
        now (link :: rest) st).g.edges ∧
      discoverLoop srcId srcDomain maxNew externalOnly posGen now
          (link :: rest) st =
        discoverLoop srcId srcDomain maxNew externalOnly posGen now rest
          { st with g := (insertEdgeIgnore st.g srcId tid).1,
                    edgesAdded := if 0 < (insertEdgeIgnore st.g srcId tid).2
                                  then st.edgesAdded + 1 else st.edgesAdded }) ∧
    ((discover exGraph3 1 1 false exLinks3 (fun _ => pos0) 100).2 =
      .ok ⟨1, 3, 1, 3, [4]⟩ ∧
     ((1 : Int), (2 : Int)) ∈
       (discover exGraph3 1 1 false exLinks3 (fun _ => pos0) 100).1.edges ∧
     ((1 : Int), (3 : Int)) ∈
       (discover exGraph3 1 1 false exLinks3 (fun _ => pos0) 100).1.edges) := by
  constructor
  · intro srcId srcDomain maxNew externalOnly posGen now link rest st tid
      hcap hex hfind
    have hstep : discoverLoop srcId srcDomain maxNew externalOnly posGen now
        (link :: rest) st =
      discoverLoop srcId srcDomain maxNew externalOnly posGen now rest
        { st with g := (insertEdgeIgnore st.g srcId tid).1,
                  edgesAdded := if 0 < (insertEdgeIgnore st.g srcId tid).2
                                then st.edgesAdded + 1 else st.edgesAdded } := by
      conv_lhs => unfold discoverLoop
      rw [if_neg (not_le.mpr hcap), if_pos hex, hfind]
    refine ⟨?_, hstep⟩
    rw [hstep]
    exact discoverLoop_edges_mono srcId srcDomain maxNew externalOnly posGen
      now rest _ (insertEdgeIgnore_mem_self st.g srcId tid)
  · refine ⟨by rfl, ?_, ?_⟩ <;>
    · have h : (discover exGraph3 1 1 false exLinks3 (fun _ => pos0)
          100).1.edges = [(1, 2), (1, 3), (1, 4)] := by rfl
      rw [h]
      decide

/-- C2 witness: processing the already-stored link `https://t.com` with
the cap still open creates the source→2 edge. -/
theorem C2_witness :
    ((1 : Int), (2 : Int)) ∈
      (discoverLoop 1 "s.com" 1 false (fun _ => pos0) 100 ["https://t.com"]
        ⟨exGraph, ["https://s.com", "https://t.com"], 0, 0, []⟩).g.edges :=
  (C2_existing_target_edges.1 1 "s.com" 1 false (fun _ => pos0) 100
    "https://t.com" [] ⟨exGraph, ["https://s.com", "https://t.com"], 0, 0, []⟩
    2 (by norm_num) (by decide) (by rfl)).1

/-! ## C10 — edge counting inside discover -/

/-- C10: in the new-node branch of the discovery loop, `edges_added` is
incremented unconditionally — the source→new-node edge insert's row
count is discarded — so when the `(source, newId)` pair already exists
as a row, the counter grows while the edge table does not.  The
pre-existing-target branch instead counts only when a row was actually
inserted: on a duplicate it leaves both the counter and the edge table
unchanged. -/
theorem C10_discover_edge_counting :
    (∀ (srcId : Int) (srcDomain : String) (maxNew : Int)
        (externalOnly : Bool) (posGen : Nat → Pos) (now : Int)
        (link : String) (st : LoopState) (gn : Graph × Int),
      st.nodesAdded < maxNew →
      st.existing.contains link = false →
      (externalOnly && ((hostOf link).getD "" == srcDomain)) = false →
      insertNodeDiscover st.g link ((hostOf link).getD "Unknown")
        (posGen st.nodesAdded.toNat) now = some gn →
      (discoverLoop srcId srcDomain maxNew externalOnly posGen now [link]
        st).edgesAdded = st.edgesAdded + 1 ∧
      (discoverLoop srcId srcDomain maxNew externalOnly posGen now [link]
        st).nodesAdded = st.nodesAdded + 1 ∧
      ((srcId, gn.2) ∈ st.g.edges →
        (discoverLoop srcId srcDomain maxNew externalOnly posGen now [link]
          st).g.edges.length = st.g.edges.length)) ∧
    (∀ (srcId : Int) (srcDomain : String) (maxNew : Int)
        (externalOnly : Bool) (posGen : Nat → Pos) (now : Int)
        (link : String) (st : LoopState) (tid : Int),
      st.nodesAdded < maxNew →
      st.existing.contains link = true →
      findIdByUrl st.g link = some tid →
      (srcId, tid) ∈ st.g.edges →
      (discoverLoop srcId srcDomain maxNew externalOnly posGen now [link]
        st).edgesAdded = st.edgesAdded ∧
      (discoverLoop srcId srcDomain maxNew externalOnly posGen now [link]
        st).g.edges = st.g.edges) := by
  constructor
  · intro srcId srcDomain maxNew externalOnly posGen now link st gn
      hcap hnotex hfilter hins
    have hstep : discoverLoop srcId srcDomain maxNew externalOnly posGen now
        [link] st =
      ⟨(insertEdgeIgnore gn.1 srcId gn.2).1, link :: st.existing,
        st.nodesAdded + 1, st.edgesAdded + 1, st.newIds ++ [gn.2]⟩ := by
      conv_lhs => unfold discoverLoop
      rw [if_neg (not_le.mpr hcap), if_neg (by rw [hnotex]; simp),
        if_neg (by rw [hfilter]; simp), hins]
      rfl
    rw [hstep]
    obtain ⟨-, hedges, -, -⟩ := insertNodeDiscover_spec hins
    refine ⟨rfl, rfl, fun hmem => ?_⟩
    have hdup : (srcId, gn.2) ∈ gn.1.edges := by
      rw [hedges]
      exact hmem
    have : insertEdgeIgnore gn.1 srcId gn.2 = (gn.1, 0) := by
      unfold insertEdgeIgnore
      rw [if_pos hdup]
    rw [this, hedges]
  · intro srcId srcDomain maxNew externalOnly posGen now link st tid
      hcap hex hfind hdup
    have hid : insertEdgeIgnore st.g srcId tid = (st.g, 0) := by
      unfold insertEdgeIgnore
      rw [if_pos hdup]
    have hstep : discoverLoop srcId srcDomain maxNew externalOnly posGen now
        [link] st = { st with g := st.g, edgesAdded := st.edgesAdded } := by
      conv_lhs => unfold discoverLoop
      rw [if_neg (not_le.mpr hcap), if_pos hex, hfind]
      dsimp only
      rw [hid]
      rfl
    rw [hstep]
    exact ⟨rfl, rfl⟩

/-- The state of the C10 witness run: the `(1, 2)` edge row already
exists, and node id 2 is the next AUTOINCREMENT value. -/
def exGraphDangling : Graph := ⟨[exSource], [(1, 2)], 2⟩

/-- The node+id pair produced by the witness run's insert. -/
def exGnDangling : Graph × Int :=
  (⟨[exSource, ⟨2, "https://new.com/a", some "new.com", none, none, pos0,
      true, none, 100⟩], [(1, 2)], 3⟩, 2)

/-- C10 witness: with the `(1, 2)` row pre-existing and node 2 freshly
inserted, `edges_added` still becomes 1 while the edge table is
unchanged — the counter exceeds the rows actually created. -/
theorem C10_witness :
    (discoverLoop 1 "s.com" 5 false (fun _ => pos0) 100 ["https://new.com/a"]
      ⟨exGraphDangling, ["https://s.com"], 0, 0, []⟩).edgesAdded = 0 + 1 ∧
    (discoverLoop 1 "s.com" 5 false (fun _ => pos0) 100 ["https://new.com/a"]
      ⟨exGraphDangling, ["https://s.com"], 0, 0, []⟩).g.edges.length =
      exGraphDangling.edges.length := by
  have h := C10_discover_edge_counting.1 1 "s.com" 5 false (fun _ => pos0) 100
    "https://new.com/a" ⟨exGraphDangling, ["https://s.com"], 0, 0, []⟩
    exGnDangling (by norm_num) (by decide) (by decide) (by rfl)
  exact ⟨h.1, h.2.2 (by decide)⟩

/-! ## C5 — staleness scheduler ordering -/

/-- Non-strict counterpart of `keyLt`. -/
def keyLe (a b : Int × Int) : Prop :=
  a.1 < b.1 ∨ (a.1 = b.1 ∧ a.2 ≤ b.2)

theorem keyLe_refl (a : Int × Int) : keyLe a a :=
  Or.inr ⟨rfl, le_refl _⟩

theorem keyLe_trans {a b c : Int × Int} (h1 : keyLe a b) (h2 : keyLe b c) :
    keyLe a c := by
  unfold keyLe at h1 h2 ⊢
  omega

theorem keyLe_of_not_keyLt {a b : Int × Int} (h : ¬ keyLt a b) : keyLe b a := by
  unfold keyLt at h
  unfold keyLe
  omega

theorem keyLe_of_keyLt {a b : Int × Int} (h : keyLt a b) : keyLe a b := by
  unfold keyLt at h
  unfold keyLe
  omega

/-- The accumulator fold behind `ORDER BY ... LIMIT 1`: it returns an
element of the list (or the seed), no larger under the order key than
the seed and than every listed element. -/
theorem selectMinBy_spec (l : List Node) (m : Node) :
    ∃ r, selectMinBy (some m) l = some r ∧ (r = m ∨ r ∈ l) ∧
      keyLe (crawlKey r) (crawlKey m) ∧
      ∀ x ∈ l, keyLe (crawlKey r) (crawlKey x) := by
  induction l generalizing m with
  | nil =>
    exact ⟨m, rfl, Or.inl rfl, keyLe_refl _, fun x hx => absurd hx
      (List.not_mem_nil x)⟩
  | cons n rest ih =>
    obtain ⟨r, hr, hmem, hle, hall⟩ := ih
      (if keyLt (crawlKey n) (crawlKey m) then n else m)
    refine ⟨r, hr, ?_, ?_, ?_⟩
    · by_cases hlt : keyLt (crawlKey n) (crawlKey m)
      · rw [if_pos hlt] at hmem
        rcases hmem with h | h
        · exact Or.inr (h ▸ List.mem_cons_self n rest)
        · exact Or.inr (List.mem_cons_of_mem n h)
      · rw [if_neg hlt] at hmem
        rcases hmem with h | h
        · exact Or.inl h
        · exact Or.inr (List.mem_cons_of_mem n h)
    · by_cases hlt : keyLt (crawlKey n) (crawlKey m)
      · rw [if_pos hlt] at hle
        exact keyLe_trans hle (keyLe_of_keyLt hlt)
      · rw [if_neg hlt] at hle
        exact hle
    · intro x hx
      rcases List.mem_cons.mp hx with hxn | hxr
      · subst hxn
        by_cases hlt : keyLt (crawlKey x) (crawlKey m)
        · rw [if_pos hlt] at hle
          exact hle
        · rw [if_neg hlt] at hle
          exact keyLe_trans hle (keyLe_of_not_keyLt hlt)
      · exact hall x hxr

/-- C5: `get_next_crawl_target` returns `none` exactly when no node is a
staleness candidate; a returned node is itself a stored candidate, is
never-crawled whenever any never-crawled candidate exists, and carries
the oldest `last_crawled` among previously-crawled candidates whenever
it is itself previously crawled. -/
theorem C5_next_crawl_target (g : Graph) (staleDays now : Int) :
    (get_next_crawl_target g staleDays now = none ↔
      g.nodes.filter (isStaleCandidate now staleDays) = []) ∧
    (∀ n, get_next_crawl_target g staleDays now = some n →
      (n ∈ g.nodes ∧ isStaleCandidate now staleDays n = true) ∧
      (∀ m ∈ g.nodes, isStaleCandidate now staleDays m = true →
        m.last_crawled = none → n.last_crawled = none) ∧
      (∀ m ∈ g.nodes, isStaleCandidate now staleDays m = true →
        ∀ t s, n.last_crawled = some t → m.last_crawled = some s → t ≤ s)) := by
  constructor
  · cases hl : g.nodes.filter (isStaleCandidate now staleDays) with
    | nil => simp [get_next_crawl_target, hl, selectMinBy]
    | cons hd tl =>
      obtain ⟨r, hr, -, -, -⟩ := selectMinBy_spec tl hd
      constructor
      · intro h
        rw [get_next_crawl_target, hl] at h
        rw [show selectMinBy none (hd :: tl) = selectMinBy (some hd) tl
          from rfl, hr] at h
        exact absurd h (by simp)
      · intro h
        exact absurd h (by simp)
  · intro n hn
    cases hl : g.nodes.filter (isStaleCandidate now staleDays) with
    | nil =>
      rw [get_next_crawl_target, hl] at hn
      exact absurd hn (by simp [selectMinBy])
    | cons hd tl =>
      rw [get_next_crawl_target, hl] at hn
      rw [show selectMinBy none (hd :: tl) = selectMinBy (some hd) tl
        from rfl] at hn
      obtain ⟨r, hr, hmem, hle, hall⟩ := selectMinBy_spec tl hd
      have hrn : r = n := Option.some.inj (hr.symm.trans hn)
      subst hrn
      have hrl : r ∈ g.nodes.filter (isStaleCandidate now staleDays) := by
        rw [hl]
        rcases hmem with h | h
        · exact h ▸ List.mem_cons_self hd tl
        · exact List.mem_cons_of_mem hd h
      have hmin : ∀ m ∈ g.nodes.filter (isStaleCandidate now staleDays),
          keyLe (crawlKey r) (crawlKey m) := by
        intro m hm
        rw [hl] at hm
        rcases List.mem_cons.mp hm with h | h
        · exact h ▸ hle
        · exact hall m h
      obtain ⟨hrg, hrstale⟩ := List.mem_filter.mp hrl
      refine ⟨⟨hrg, hrstale⟩, ?_, ?_⟩
      · intro m hmg hmstale hmnull
        have hkey := hmin m (List.mem_filter.mpr ⟨hmg, hmstale⟩)
        unfold crawlKey keyLe at hkey
        rw [hmnull] at hkey
        by_cases hnone : r.last_crawled.isNone
        · exact Option.isNone_iff_eq_none.mp hnone
        · rw [if_neg hnone] at hkey
          simp at hkey
      · intro m hmg hmstale t s hrt hms
        have hkey := hmin m (List.mem_filter.mpr ⟨hmg, hmstale⟩)
        unfold crawlKey keyLe at hkey
        rw [hrt, hms] at hkey
        simp at hkey
        omega

/-- The never-crawled node of the scheduler scenario. -/
def exNodeA : Node := ⟨1, "https://a.com", none, none, none, pos0, true, none, 0⟩

/-- The node crawled 10 days ago (timestamps in seconds). -/
def exNodeB : Node :=
  ⟨2, "https://b.com", none, none, none, pos0, true, some (10 * 86400), 0⟩

def exGraphAB : Graph := ⟨[exNodeB, exNodeA], [], 3⟩

/-- C5 witness: with A never crawled and B crawled 10 days ago at
`staleDays = 5` (now = day 20), the scheduler returns A — a stored,
stale, never-crawled candidate. -/
theorem C5_witness :
    exNodeA ∈ exGraphAB.nodes ∧
    isStaleCandidate (20 * 86400) 5 exNodeA = true ∧
    exNodeA.last_crawled = none := by
  have h := (C5_next_crawl_target exGraphAB 5 (20 * 86400)).2 exNodeA
    (by decide)
  exact ⟨h.1.1, h.1.2, h.2.1 exNodeA h.1.1 h.1.2 rfl⟩

/-! ## C9 — import vs merge edge counting -/

/-- An imported edge row that reaches the insert: non-NULL target and
both endpoints resolving through the string-id remap. -/
def resolvableEdge (idMap : List (String × Int)) (e : String × Option String) :
    Bool :=
  match e.2 with
  | none => false
  | some t => (lookupCrawlerId idMap e.1).isSome &&
      (lookupCrawlerId idMap t).isSome

/-- C9: the import edge loop counts exactly the resolvable edge rows —
independent of the current edge table, so a pair whose row already
exists is still counted (concretely, a single already-present pair
yields count 1 with the graph unchanged) — whereas the merge edge loop
on an already-present pair counts nothing. -/
theorem C9_import_edge_counting :
    (∀ (es : List (String × Option String)) (g : Graph)
        (idMap : List (String × Int)),
      (importEdges es g idMap).2 = (es.countP (resolvableEdge idMap) : Int)) ∧
    (∀ (g : Graph) (idMap : List (String × Int)) (s t : String) (a b : Int),
      lookupCrawlerId idMap s = some a → lookupCrawlerId idMap t = some b →
      (a, b) ∈ g.edges →
      importEdges [(s, some t)] g idMap = (g, 1)) ∧
    (∀ (g : Graph) (idMap : List (Int × Int)) (os ot ns nt : Int),
      lookupIntKey idMap os = some ns → lookupIntKey idMap ot = some nt →
      (ns, nt) ∈ g.edges →
      mergeEdges [(os, ot)] g idMap = (g, 0)) := by
  refine ⟨?_, ?_, ?_⟩
  · intro es
    induction es with
    | nil => intro g idMap; simp [importEdges]
    | cons e rest ih =>
      intro g idMap
      obtain ⟨s, t?⟩ := e
      cases t? with
      | none =>
        rw [show importEdges ((s, none) :: rest) g idMap =
          importEdges rest g idMap from rfl, ih]
        simp [List.countP_cons, resolvableEdge]
      | some t =>
        rcases hs : lookupCrawlerId idMap s with - | a
        · rw [show importEdges ((s, some t) :: rest) g idMap =
            (match lookupCrawlerId idMap s, lookupCrawlerId idMap t with
             | some appSource, some appTarget =>
               ((importEdges rest (insertEdgeIgnore g appSource appTarget).1
                  idMap).1,
                1 + (importEdges rest (insertEdgeIgnore g appSource appTarget).1
                  idMap).2)
             | _, _ => importEdges rest g idMap) from rfl, hs, ih]
          simp [List.countP_cons, resolvableEdge, hs]
        · rcases ht : lookupCrawlerId idMap t with - | b
          · rw [show importEdges ((s, some t) :: rest) g idMap =
              (match lookupCrawlerId idMap s, lookupCrawlerId idMap t with
               | some appSource, some appTarget =>
                 ((importEdges rest (insertEdgeIgnore g appSource
                    appTarget).1 idMap).1,
                  1 + (importEdges rest (insertEdgeIgnore g appSource
                    appTarget).1 idMap).2)
               | _, _ => importEdges rest g idMap) from rfl, hs, ht, ih]
            simp [List.countP_cons, resolvableEdge, hs, ht]
          · rw [show importEdges ((s, some t) :: rest) g idMap =
              (match lookupCrawlerId idMap s, lookupCrawlerId idMap t with
               | some appSource, some appTarget =>
                 ((importEdges rest (insertEdgeIgnore g appSource
                    appTarget).1 idMap).1,
                  1 + (importEdges rest (insertEdgeIgnore g appSource
                    appTarget).1 idMap).2)
               | _, _ => importEdges rest g idMap) from rfl, hs, ht]
            dsimp only
            rw [ih]
            simp [List.countP_cons, resolvableEdge, hs, ht]
            omega
  · intro g idMap s t a b hs ht hmem
    have hid : insertEdgeIgnore g a b = (g, 0) := by
      unfold insertEdgeIgnore
      rw [if_pos hmem]
    rw [show importEdges [(s, some t)] g idMap =
      (match lookupCrawlerId idMap s, lookupCrawlerId idMap t with
       | some appSource, some appTarget =>
         ((importEdges [] (insertEdgeIgnore g appSource appTarget).1 idMap).1,
          1 + (importEdges [] (insertEdgeIgnore g appSource appTarget).1
            idMap).2)
       | _, _ => importEdges [] g idMap) from rfl, hs, ht]
    dsimp only
    rw [hid]
    rfl
  · intro g idMap os ot ns nt hs ht hmem
    have hid : insertEdgeIgnore g ns nt = (g, 0) := by
      unfold insertEdgeIgnore
      rw [if_pos hmem]
    rw [show mergeEdges [(os, ot)] g idMap =
      (match lookupIntKey idMap os, lookupIntKey idMap ot with
       | some ns, some nt =>
         ((mergeEdges [] (insertEdgeIgnore g ns nt).1 idMap).1,
          (if 0 < (insertEdgeIgnore g ns nt).2 then 1 else 0) +
            (mergeEdges [] (insertEdgeIgnore g ns nt).1 idMap).2)
       | _, _ => mergeEdges [] g idMap) from rfl, hs, ht]
    dsimp only
    rw [hid]
    rfl

/-- C9 witness: the `(1, 2)` edge row already exists; importing it is
still counted (`edges_imported = 1`, table unchanged) while merging it
is not (`edges_merged = 0`). -/
theorem C9_witness :
    importEdges [("a", some "b")] exGraphDangling [("a", 1), ("b", 2)] =
      (exGraphDangling, 1) ∧
    mergeEdges [(10, 11)] exGraphDangling [(10, 1), (11, 2)] =
      (exGraphDangling, 0) :=
  ⟨C9_import_edge_counting.2.1 exGraphDangling [("a", 1), ("b", 2)] "a" "b"
      1 2 (by rfl) (by rfl) (by decide),
   C9_import_edge_counting.2.2 exGraphDangling [(10, 1), (11, 2)] 10 11 1 2
      (by rfl) (by rfl) (by decide)⟩

/-! ## C6 — merge idempotence (nodes) -/

/-- A successful `insertNodeMerge` appends exactly the copied row. -/
theorem insertNodeMerge_spec {g : Graph} {sn : SessionNode} {now : Int}
    {gn : Graph × Int} (h : insertNodeMerge g sn now = some gn) :
    gn.1.nodes = g.nodes ++ [⟨g.nextId, sn.url, sn.title, sn.favicon,
      sn.screenshot, sn.pos, sn.is_alive, sn.last_crawled, now⟩] ∧
    gn.2 = g.nextId := by
  unfold insertNodeMerge at h
  split at h
  · exact absurd h (by simp)
  · rw [Option.some_inj] at h
    subst h
    exact ⟨rfl, rfl⟩

/-- A failing `insertNodeMerge` means the URL is already stored
(case-sensitively). -/
theorem insertNodeMerge_none {g : Graph} {sn : SessionNode} {now : Int}
    (h : insertNodeMerge g sn now = none) : ∃ n ∈ g.nodes, n.url = sn.url := by
  unfold insertNodeMerge at h
  split at h
  · rename_i hany
    obtain ⟨n, hn, hurl⟩ := List.any_eq_true.mp hany
    exact ⟨n, hn, by simpa using hurl⟩
  · exact absurd h (by simp)

/-- A successful URL-map lookup exhibits a binding with the looked-up key. -/
theorem lookupStrKey_mem {m : List (String × Int)} {k : String} {v : Int}
    (h : lookupStrKey m k = some v) : ∃ p ∈ m, p.1 = k := by
  unfold lookupStrKey at h
  cases hf : m.find? (fun p => p.1 == k) with
  | none => rw [hf] at h; exact absurd h (by simp)
  | some p =>
    refine ⟨p, List.mem_of_find?_eq_some hf, ?_⟩
    have := List.find?_some hf
    simpa using this

/-- `List.find?` unfolded on a cons cell. -/
theorem find?_cons_eq {α : Type} (p : α → Bool) (a : α) (l : List α) :
    (a :: l).find? p =
      (match p a with | true => some a | false => l.find? p) := rfl

/-- Consing a binding cannot make a previously successful lookup fail. -/
theorem lookupStrKey_isSome_cons (x : String × Int) {m : List (String × Int)}
    {k : String} (h : (lookupStrKey m k).isSome = true) :
    (lookupStrKey ((x :: m : List (String × Int))) k).isSome = true := by
  unfold lookupStrKey at h ⊢
  rw [find?_cons_eq]
  cases hx : (x.1 == k) with
  | true => rfl
  | false => exact h

/-- Every binding of the up-front lowercased URL map comes from a stored
node. -/
theorem buildLowerUrlMap_mem_aux (nodes : List Node) :
    ∀ (acc : List (String × Int)) (p : String × Int),
    p ∈ nodes.foldl (fun m n => (strToLower n.url, n.id) :: m) acc →
    p ∈ acc ∨ ∃ n ∈ nodes, strToLower n.url = p.1 := by
  induction nodes with
  | nil => intro acc p hp; exact Or.inl hp
  | cons n rest ih =>
    intro acc p hp
    rcases ih _ p hp with hacc | ⟨n', hn', hl⟩
    · rcases List.mem_cons.mp hacc with h | h
      · exact Or.inr ⟨n, List.mem_cons_self n rest, by rw [h]⟩
      · exact Or.inl h
    · exact Or.inr ⟨n', List.mem_cons_of_mem _ hn', hl⟩

theorem buildLowerUrlMap_mem (nodes : List Node) (p : String × Int)
    (hp : p ∈ buildLowerUrlMap nodes) : ∃ n ∈ nodes, strToLower n.url = p.1 := by
  rcases buildLowerUrlMap_mem_aux nodes [] p hp with h | h
  · exact absurd h (List.not_mem_nil p)
  · exact h

/-- The up-front map answers every lowercased URL of a stored node. -/
theorem buildLowerUrlMap_covers_aux (nodes : List Node) :
    ∀ (acc : List (String × Int)) (k : String),
    ((lookupStrKey acc k).isSome = true ∨ ∃ n ∈ nodes, strToLower n.url = k) →
    (lookupStrKey
      (nodes.foldl (fun m n => (strToLower n.url, n.id) :: m) acc) k).isSome
      = true := by
  induction nodes with
  | nil =>
    intro acc k h
    rcases h with hs | ⟨n, hn, -⟩
    · exact hs
    · exact absurd hn (List.not_mem_nil n)
  | cons n rest ih =>
    intro acc k h
    apply ih ((strToLower n.url, n.id) :: acc) k
    rcases h with hs | ⟨n', hn', hl⟩
    · exact Or.inl (lookupStrKey_isSome_cons _ hs)
    · rcases List.mem_cons.mp hn' with he | he
      · subst he
        refine Or.inl ?_
        unfold lookupStrKey
        rw [find?_cons_eq, show ((strToLower n'.url, n'.id).1 == k) = true
          by simpa using hl]
        rfl
      · exact Or.inr ⟨n', he, hl⟩

theorem buildLowerUrlMap_covers (nodes : List Node) (k : String)
    (h : ∃ n ∈ nodes, strToLower n.url = k) :
    (lookupStrKey (buildLowerUrlMap nodes) k).isSome = true :=
  buildLowerUrlMap_covers_aux nodes [] k (Or.inr h)

/-- Invariant of a merge state: every URL-map key is the lowercased URL
of some stored node. -/
def urlMapSound (st : MergeState) : Prop :=
  ∀ p ∈ st.urlMap, ∃ n ∈ st.g.nodes, strToLower n.url = p.1

/-- The merge node loop only appends to the active node table. -/
theorem mergeNodes_nodes_mono (now : Int) :
    ∀ (ns : List SessionNode) (st : MergeState) (idMap : List (Int × Int))
      {n : Node}, n ∈ st.g.nodes → n ∈ (mergeNodes now ns st idMap).1.g.nodes := by
  intro ns
  induction ns with
  | nil => intro st idMap n hn; exact hn
  | cons sn rest ih =>
    intro st idMap n hn
    unfold mergeNodes
    cases hl : lookupStrKey st.urlMap (strToLower sn.url) with
    | some eid =>
      exact ih _ _ hn
    | none =>
      cases hins : insertNodeMerge st.g sn now with
      | some gn =>
        apply ih
        show n ∈ gn.1.nodes
        rw [(insertNodeMerge_spec hins).1]
        exact List.mem_append_left _ hn
      | none =>
        exact ih _ _ hn

/-- Main induction for the first merge pass: the URL-map invariant is
preserved, and every processed session node ends with a stored node
carrying the same lowercased URL. -/
theorem mergeNodes_main (now : Int) :
    ∀ (ns : List SessionNode) (st : MergeState) (idMap : List (Int × Int)),
    urlMapSound st →
    urlMapSound (mergeNodes now ns st idMap).1 ∧
    ∀ sn ∈ ns, ∃ n ∈ (mergeNodes now ns st idMap).1.g.nodes,
      strToLower n.url = strToLower sn.url := by
  intro ns
  induction ns with
  | nil =>
    intro st idMap hs
    exact ⟨hs, fun sn hsn => absurd hsn (List.not_mem_nil sn)⟩
  | cons sn0 rest ih =>
    intro st idMap hs
    unfold mergeNodes
    cases hl : lookupStrKey st.urlMap (strToLower sn0.url) with
    | some eid =>
      obtain ⟨ih1, ih2⟩ := ih
        { st with res :=
            { st.res with nodes_skipped := st.res.nodes_skipped + 1 } }
        ((sn0.id, eid) :: idMap) hs
      refine ⟨ih1, ?_⟩
      intro sn hsn
      rcases List.mem_cons.mp hsn with he | he
      · subst he
        obtain ⟨p, hp, hpk⟩ := lookupStrKey_mem hl
        obtain ⟨n, hn, hlow⟩ := hs p hp
        exact ⟨n, mergeNodes_nodes_mono now rest _ _ hn, by rw [hlow, hpk]⟩
      · exact ih2 sn he
    | none =>
      cases hins : insertNodeMerge st.g sn0 now with
      | some gn =>
        obtain ⟨hnodes, -⟩ := insertNodeMerge_spec hins
        have hs' : urlMapSound
            { g := gn.1, urlMap := (strToLower sn0.url, gn.2) :: st.urlMap,
              res := { st.res with
                nodes_merged := st.res.nodes_merged + 1 } } := by
          intro p hp
          rcases List.mem_cons.mp hp with he | he
          · refine ⟨⟨st.g.nextId, sn0.url, sn0.title, sn0.favicon,
              sn0.screenshot, sn0.pos, sn0.is_alive, sn0.last_crawled, now⟩,
              ?_, by rw [he]⟩
            show _ ∈ gn.1.nodes
            rw [hnodes]
            exact List.mem_append_right _ (List.mem_singleton.mpr rfl)
          · obtain ⟨n, hn, hlow⟩ := hs p he
            refine ⟨n, ?_, hlow⟩
            show n ∈ gn.1.nodes
            rw [hnodes]
            exact List.mem_append_left _ hn
        obtain ⟨ih1, ih2⟩ := ih _ ((sn0.id, gn.2) :: idMap) hs'
        refine ⟨ih1, ?_⟩
        intro sn hsn
        rcases List.mem_cons.mp hsn with he | he
        · subst he
          refine ⟨⟨st.g.nextId, sn.url, sn.title, sn.favicon, sn.screenshot,
            sn.pos, sn.is_alive, sn.last_crawled, now⟩, ?_, rfl⟩
          apply mergeNodes_nodes_mono
          show _ ∈ gn.1.nodes
          rw [hnodes]
          exact List.mem_append_right _ (List.mem_singleton.mpr rfl)
        · exact ih2 sn he
      | none =>
        obtain ⟨ih1, ih2⟩ := ih st idMap hs
        refine ⟨ih1, ?_⟩
        intro sn hsn
        rcases List.mem_cons.mp hsn with he | he
        · subst he
          obtain ⟨n, hn, hurl⟩ := insertNodeMerge_none hins
          exact ⟨n, mergeNodes_nodes_mono now rest _ _ hn, by rw [hurl]⟩
        · exact ih2 sn he

/-- When every session node's lowercased URL is already mapped, the node
loop merges nothing and skips everything. -/
theorem mergeNodes_all_skip (now : Int) :
    ∀ (ns : List SessionNode) (st : MergeState) (idMap : List (Int × Int)),
    (∀ sn ∈ ns, (lookupStrKey st.urlMap (strToLower sn.url)).isSome = true) →
    (mergeNodes now ns st idMap).1.res.nodes_merged = st.res.nodes_merged ∧
    (mergeNodes now ns st idMap).1.res.nodes_skipped =
      st.res.nodes_skipped + (ns.length : Int) := by
  intro ns
  induction ns with
  | nil => intro st idMap h; exact ⟨rfl, by simp [mergeNodes]⟩
  | cons sn0 rest ih =>
    intro st idMap h
    obtain ⟨eid, hl⟩ := Option.isSome_iff_exists.mp
      (h sn0 (List.mem_cons_self _ _))
    unfold mergeNodes
    rw [hl]
    obtain ⟨c1, c2⟩ := ih
      { st with res :=
          { st.res with nodes_skipped := st.res.nodes_skipped + 1 } }
      ((sn0.id, eid) :: idMap)
      (fun sn hsn => h sn (List.mem_cons_of_mem _ hsn))
    refine ⟨c1, ?_⟩
    rw [c2]
    show st.res.nodes_skipped + 1 + (rest.length : Int) =
      st.res.nodes_skipped + ((rest.length + 1 : Nat) : Int)
    push_cast
    omega

/-- The merge edge loop never touches the node table. -/
theorem mergeEdges_nodes :
    ∀ (es : List (Int × Int)) (g : Graph) (idMap : List (Int × Int)),
    (mergeEdges es g idMap).1.nodes = g.nodes := by
  intro es
  induction es with
  | nil => intro g idMap; rfl
  | cons e rest ih =>
    intro g idMap
    obtain ⟨os, ot⟩ := e
    unfold mergeEdges
    cases h1 : lookupIntKey idMap os with
    | none => exact ih g idMap
    | some ns =>
      cases h2 : lookupIntKey idMap ot with
      | none => exact ih g idMap
      | some nt =>
        show (mergeEdges rest (insertEdgeIgnore g ns nt).1 idMap).1.nodes
          = g.nodes
        rw [ih, insertEdgeIgnore_nodes]

/-- C6: merging the same source database a second time reports
`nodes_merged = 0` and `nodes_skipped` equal to its full node count —
every lowercased URL is recognized as already present by the shared
up-front map. -/
theorem C6_merge_idempotent_nodes (g : Graph) (s : SessionDB) (now now' : Int) :
    (merge_sessions (merge_sessions g [s] now).1 [s] now').2.nodes_merged
      = 0 ∧
    (merge_sessions (merge_sessions g [s] now).1 [s] now').2.nodes_skipped
      = (s.nodes.length : Int) := by
  have hsound : urlMapSound ⟨g, buildLowerUrlMap g.nodes, ⟨0, 0, 0, 0⟩⟩ :=
    fun p hp => buildLowerUrlMap_mem g.nodes p hp
  have hcov := (mergeNodes_main now s.nodes
    ⟨g, buildLowerUrlMap g.nodes, ⟨0, 0, 0, 0⟩⟩ [] hsound).2
  have hcov1 : ∀ sn ∈ s.nodes, ∃ n ∈ (merge_sessions g [s] now).1.nodes,
      strToLower n.url = strToLower sn.url := by
    intro sn hsn
    obtain ⟨n, hn, hlow⟩ := hcov sn hsn
    refine ⟨n, ?_, hlow⟩
    show n ∈ (mergeEdges s.edges
      (mergeNodes now s.nodes ⟨g, buildLowerUrlMap g.nodes, ⟨0, 0, 0, 0⟩⟩
        []).1.g
      (mergeNodes now s.nodes ⟨g, buildLowerUrlMap g.nodes, ⟨0, 0, 0, 0⟩⟩
        []).2).1.nodes
    rw [mergeEdges_nodes]
    exact hn
  obtain ⟨c1, c2⟩ := mergeNodes_all_skip now' s.nodes
    ⟨(merge_sessions g [s] now).1,
      buildLowerUrlMap (merge_sessions g [s] now).1.nodes, ⟨0, 0, 0, 0⟩⟩ []
    (fun sn hsn => buildLowerUrlMap_covers _ _ (hcov1 sn hsn))
  constructor
  · exact c1
  · rw [show (merge_sessions (merge_sessions g [s] now).1 [s]
        now').2.nodes_skipped =
      (mergeNodes now' s.nodes
        ⟨(merge_sessions g [s] now).1,
          buildLowerUrlMap (merge_sessions g [s] now).1.nodes, ⟨0, 0, 0, 0⟩⟩
        []).1.res.nodes_skipped from rfl, c2]
    simp

/-! ## C7 — outbound-link extraction -/

/-- Spec-modelled comparison point for the trailing-slash rule: the
claim's words say "a single trailing slash is trimmed", i.e. remove one
final `/` when present. -/
def specTrimSingleSlash (s : String) : String :=
  if s.data.getLast? = some '/' then ⟨s.data.dropLast⟩ else s

/-- Spec-modelled variant of the per-href step, identical to
`extractLinksStep` except that it trims a single trailing slash as the
claim states, for comparison with the source's trim-all behaviour. -/
def extractLinksStepSpec (base : String) (links : List String)
    (href : String) : List String :=
  match normalizeHref base href with
  | none => links
  | some normalized =>
    if strStartsWith normalized "http://"
        || strStartsWith normalized "https://" then
      match urlCleanSerialize normalized with
      | some serialized =>
        let cleanUrl := specTrimSingleSlash serialized
        if !links.contains cleanUrl && cleanUrl.length < 500 then
          links ++ [cleanUrl]
        else links
      | none => links
    else links

/-- Spec-modelled extraction with single-slash trimming. -/
def extractLinksSpec (base : String) (hrefs : List String) : List String :=
  hrefs.foldl (extractLinksStepSpec base) []

/-- C7 counterexample: on the href `https://other.com/x//` the source's
`trim_end_matches('/')` removes both trailing slashes, while the claim's
"a single trailing slash is trimmed" would leave one — the two disagree
on this input. -/
theorem C7_counterexample :
    extractLinksSpec "https://example.com" ["https://other.com/x//"] =
      ["https://other.com/x/"] ∧
    extractLinks "https://example.com" ["https://other.com/x//"] =
      ["https://other.com/x"] ∧
    extractLinksSpec "https://example.com" ["https://other.com/x//"] ≠
      extractLinks "https://example.com" ["https://other.com/x//"] := by
  refine ⟨by rfl, by rfl, by decide⟩

/-- `List.dropWhile` is idempotent. -/
theorem dropWhile_idem {α : Type} (p : α → Bool) (l : List α) :
    (l.dropWhile p).dropWhile p = l.dropWhile p := by
  induction l with
  | nil => rfl
  | cons a l ih =>
    by_cases hp : p a = true
    · simp [List.dropWhile_cons, hp, ih]
    · simp [List.dropWhile_cons, hp]

/-- Trimming trailing slashes is idempotent, i.e. its output carries no
trailing slash. -/
theorem trimEndSlashes_idem (s : String) :
    trimEndSlashes (trimEndSlashes s) = trimEndSlashes s := by
  show (⟨((⟨(s.data.reverse.dropWhile (· = '/')).reverse⟩ :
    String).data.reverse.dropWhile (· = '/')).reverse⟩ : String) = _
  rw [show (⟨(s.data.reverse.dropWhile (· = '/')).reverse⟩ :
    String).data = (s.data.reverse.dropWhile (· = '/')).reverse from rfl]
  rw [List.reverse_reverse, dropWhile_idem]
  rfl

/-- Everything the per-href step emits beyond the accumulator is short
and slash-trimmed. -/
theorem extractLinksStep_mem (base : String) (links : List String)
    (href u : String) (hu : u ∈ extractLinksStep base links href) :
    u ∈ links ∨ (u.length < 500 ∧ trimEndSlashes u = u) := by
  unfold extractLinksStep at hu
  split at hu
  · exact Or.inl hu
  · split at hu
    · split at hu
      · dsimp only at hu
        split at hu
        · rename_i hguard
          rcases List.mem_append.mp hu with h | h
          · exact Or.inl h
          · rw [List.mem_singleton.mp h]
            refine Or.inr ⟨?_, trimEndSlashes_idem _⟩
            have := (Bool.and_eq_true _ _).mp hguard
            simpa using this.2
        · exact Or.inl hu
      · exact Or.inl hu
    · exact Or.inl hu

/-- The per-href step preserves duplicate-freeness. -/
theorem extractLinksStep_nodup (base : String) (links : List String)
    (href : String) (h : links.Nodup) : (extractLinksStep base links href).Nodup := by
  unfold extractLinksStep
  split
  · exact h
  · split
    · split
      · rename_i sv hsv
        dsimp only
        split
        · rename_i hguard
          have hc := (Bool.and_eq_true _ _).mp hguard
          have hcf : links.contains (trimEndSlashes sv) = false := by
            have h1 := hc.1
            rw [Bool.not_eq_eq_eq_not] at h1
            simpa using h1
          have hnotmem : trimEndSlashes sv ∉ links := by
            intro hmem
            have h2 := List.elem_eq_true_of_mem hmem
            rw [show links.contains (trimEndSlashes sv) =
              links.elem (trimEndSlashes sv) from rfl, h2] at hcf
            exact Bool.true_eq_false.mp hcf
          rw [List.nodup_append]
          exact ⟨h, List.nodup_singleton _,
            fun a ha hb => hnotmem ((List.mem_singleton.mp hb) ▸ ha)⟩
        · exact h
      · exact h
    · exact h

/-- A one-character prefix determines the first character. -/
theorem listStarts_single {c : Char} {cs : List Char} {d : Char}
    (h : listStarts (c :: cs) [d] = true) : c = d := by
  simp [listStarts] at h
  exact h

/-- A multi-character prefix determines the first character. -/
theorem listStarts_head_eq {c : Char} {cs : List Char} {d e : Char}
    {ds : List Char} (h : listStarts (c :: cs) (d :: e :: ds) = true) :
    c = d := by
  simp [listStarts] at h
  exact h.1

/-- An href whose first character rules out every resolving branch is
dropped by the normalization ladder. -/
theorem extractLinksStep_skip (base : String) (links : List String)
    (h : String)
    (hh : strStartsWith h "#" = true ∨ strStartsWith h "javascript:" = true ∨
      strStartsWith h "mailto:" = true) :
    extractLinksStep base links h = links := by
  rcases hd : h.data with - | ⟨c, cs⟩
  · exfalso
    rcases hh with h1 | h1 | h1 <;>
      (unfold strStartsWith at h1; rw [hd] at h1; exact absurd h1 (by decide))
  · have hc : c = '#' ∨ c = 'j' ∨ c = 'm' := by
      rcases hh with h1 | h1 | h1
      · unfold strStartsWith at h1
        rw [hd] at h1
        exact Or.inl (listStarts_single h1)
      · unfold strStartsWith at h1
        rw [hd] at h1
        exact Or.inr (Or.inl (listStarts_head_eq h1))
      · unfold strStartsWith at h1
        rw [hd] at h1
        exact Or.inr (Or.inr (listStarts_head_eq h1))
    have h2 : strStartsWith h "//" = false := by
      unfold strStartsWith
      rw [hd]
      rcases hc with rfl | rfl | rfl <;> rfl
    have h3 : strStartsWith h "/" = false := by
      unfold strStartsWith
      rw [hd]
      rcases hc with rfl | rfl | rfl <;> rfl
    have h4 : strStartsWith h "http" = false := by
      unfold strStartsWith
      rw [hd]
      rcases hc with rfl | rfl | rfl <;> rfl
    have h5 : normalizeHref base h = none := by
      unfold normalizeHref
      rw [h2, h3, h4]
      rcases hh with h1 | h1 | h1 <;> simp [h1]
    unfold extractLinksStep
    rw [h5]

/-- C7 (amended): on host `example.com` the scenario hrefs yield exactly
`["https://example.com/about", "https://other.com/x"]`; fragment-only,
`javascript:` and `mailto:` hrefs are always dropped; the result list is
duplicate-free; and every kept URL is under 500 characters with all
trailing slashes trimmed. -/
theorem C7_link_extraction :
    extractLinks "https://example.com"
      ["/about", "https://other.com/x", "#frag", "mailto:a@b.com"] =
      ["https://example.com/about", "https://other.com/x"] ∧
    (∀ base links h, strStartsWith h "#" = true ∨
      strStartsWith h "javascript:" = true ∨
      strStartsWith h "mailto:" = true →
      extractLinksStep base links h = links) ∧
    (∀ base hrefs, (extractLinks base hrefs).Nodup) ∧
    (∀ base hrefs u, u ∈ extractLinks base hrefs →
      u.length < 500 ∧ trimEndSlashes u = u) := by
  refine ⟨by rfl, extractLinksStep_skip, ?_, ?_⟩
  · intro base hrefs
    suffices haux : ∀ (hl : List String) (acc : List String), acc.Nodup →
        (hl.foldl (extractLinksStep base) acc).Nodup from
      haux hrefs [] List.nodup_nil
    intro hl
    induction hl with
    | nil => exact fun acc h => h
    | cons href rest ih =>
      exact fun acc h => ih _ (extractLinksStep_nodup base acc href h)
  · intro base hrefs
    suffices haux : ∀ (hl : List String) (acc : List String) (u : String),
        u ∈ hl.foldl (extractLinksStep base) acc →
        u ∈ acc ∨ (u.length < 500 ∧ trimEndSlashes u = u) by
      intro u hu
      rcases haux hrefs [] u hu with h | h
      · exact absurd h (List.not_mem_nil u)
      · exact h
    intro hl
    induction hl with
    | nil => exact fun acc u hu => Or.inl hu
    | cons href rest ih =>
      intro acc u hu
      rcases ih _ u hu with h | h
      · exact extractLinksStep_mem base acc href u h
      · exact Or.inr h

/-- C7 witness: a fragment-only href is dropped by the step function. -/
theorem C7_witness :
    extractLinksStep "https://example.com" [] "#frag" = [] :=
  C7_link_extraction.2.1 "https://example.com" [] "#frag"
    (Or.inl (by decide))

end VoidBrowser
